/-
Verification of the railway journey-planning engine (network.js of the
RailwayProject2 repository): graph builder and exhaustive depth-first
journey search.  The JavaScript source is shallowly embedded below:
JS numbers that may be NaN become `JSDist`, station object references
become station names (the builder keys each station object by its unique
name, so reference equality coincides with name equality), the mutable
`routesFound` accumulator becomes the returned list, and the mutable
`journey` argument (copied before every recursive call in the source)
becomes a functional `Journey` value.  Recursion is fuel-indexed; the
fuel actually used (`searchFuel`) is proven sufficient.
-/
import Mathlib

namespace Railway

/-- A JavaScript number used as an edge distance: either NaN (also covering
`undefined`, whose numeric coercion is NaN) or an actual value. -/
inductive JSDist where
  | nan : JSDist
  | num : Int → JSDist
deriving DecidableEq, Repr

/-- Embeds `Link` (network.js): an edge of the graph.  `station` holds the
name of the target station (the source stores the object reference, which the
builder keys by this unique name); `linklName` copies the source's
`this.linklName = station.stationName` field. -/
structure Link where
  routeName : String
  distance : JSDist
  station : String
  linklName : String
deriving DecidableEq, Repr

/-- Embeds `Station` (network.js): a node of the graph with its outgoing
links, in insertion order. -/
structure Station where
  stationName : String
  stationID : Int
  links : List Link
deriving DecidableEq, Repr

/-- The graph built by `network`: a name-keyed, insertion-ordered collection
of stations (the source uses a plain JS object as a dictionary). -/
abbrev Graph := List Station

/-- Dictionary lookup `graph[name]`. -/
def lookupStation (g : Graph) (name : String) : Option Station :=
  g.find? (fun st => st.stationName == name)

/-- The `name in graph` membership test of the source. -/
def containsStation (g : Graph) (name : String) : Bool :=
  (lookupStation g name).isSome

/-- The links of the station object named `name` (empty if absent). -/
def linksOf (g : Graph) (name : String) : List Link :=
  match lookupStation g name with
  | some st => st.links
  | none => []

/-- Embeds `Journey` (network.js).  `stations` holds the names of the visited
station objects, in visit order. -/
structure Journey where
  stations : List String
  distance : Int
  text : String
  success : Bool
  changes : Nat
deriving DecidableEq, Repr

/-- `new Journey()`. -/
def Journey.empty : Journey :=
  { stations := [], distance := 0, text := "", success := false, changes := 0 }

/-- Embeds `Journey.prototype.incDistance`: the increment is guarded by
`!isNaN(amt) && amt > 0`, so a NaN or non-positive amount is a no-op. -/
def Journey.incDistance (j : Journey) : JSDist → Journey
  | .nan => j
  | .num x => if 0 < x then { j with distance := j.distance + x } else j

/-- Embeds `Journey.prototype.addChange`: bumps the change counter and
appends the narrative line. -/
def Journey.addChange (j : Journey) (stationName newRouteName : String) : Journey :=
  { j with changes := j.changes + 1,
           text := j.text ++ "At " ++ stationName ++ " change to " ++ newRouteName ++ "\n" }

/-- Embeds `Journey.prototype.addFirstStop`: overwrites the narrative with
the embark line (the source assigns `this.text = ...`). -/
def Journey.addFirstStop (j : Journey) (originName routeName : String) : Journey :=
  { j with text := "Embark at " ++ originName ++ " on " ++ routeName ++ "\n" }

/-- The per-link journey update inlined in `doGetBestRoute` (network.js lines
processing one link): copy the journey, record an embark when the route
context is the sentinel string "origin", record a change when the link leaves
the current route, do nothing otherwise, then accumulate the link distance. -/
def updateJourneyForLink (j : Journey) (originName : String) (link : Link)
    (routeName : String) : Journey :=
  let nj :=
    if routeName = "origin" then
      j.addFirstStop originName link.routeName
    else if link.routeName ≠ routeName then
      j.addChange originName link.routeName
    else
      j
  nj.incDistance link.distance

/-- Embeds `doGetBestRoute` (network.js): fuel-indexed depth-first search.
The journey has the current origin pushed on entry; on arrival the completed
journey is emitted; otherwise each link whose target is not already on the
journey is explored with a copied, updated journey.  The list returned
collects the contents of the source's `routesFound` accumulator in push
order. -/
def doGetBestRoute (g : Graph) : Nat → String → String → Journey → String → List Journey
  | 0, _, _, _, _ => []
  | fuel + 1, origin, destination, journey, routeName =>
    let j2 : Journey := { journey with stations := journey.stations ++ [origin] }
    if origin = destination then
      [{ j2 with success := true, text := j2.text ++ ("Arrive at " ++ destination) }]
    else
      (linksOf g origin).flatMap (fun link =>
        if link.station ∈ j2.stations then []
        else
          doGetBestRoute g fuel link.station destination
            (updateJourneyForLink j2 origin link routeName) link.routeName)

/-- Total number of links in the graph. -/
def totalLinks (g : Graph) : Nat :=
  (g.map (fun st => st.links.length)).sum

/-- Fuel sufficient for the search: every recursive call pushes a fresh
station which (beyond the origin) is a link target, so the depth never
exceeds `totalLinks g + 1`. -/
def searchFuel (g : Graph) : Nat :=
  totalLinks g + 2

/-- The `sortJourney` comparator of `getBestRoute`, as the "does not come
strictly after" Boolean relation (`sortJourney a b <= 0`) used by the stable
sort: fewer changes first, then smaller distance. -/
def journeyLE (a b : Journey) : Bool :=
  decide (a.changes < b.changes) ||
    (a.changes == b.changes && decide (a.distance ≤ b.distance))

/-- Insert a journey after every earlier journey that does not come strictly
after it: the insertion step of a stable sort under `journeyLE`. -/
def insertJourney (a : Journey) : List Journey → List Journey
  | [] => [a]
  | b :: l => if journeyLE a b then a :: b :: l else b :: insertJourney a l

/-- Embeds `possibleRoutes.sort(sortJourney)`: `Array.prototype.sort` is
required to be stable, and a stable sort under the total, transitive
comparator `sortJourney` has a unique result, here computed by stable
insertion sort. -/
def sortJourneys : List Journey → List Journey
  | [] => []
  | a :: l => insertJourney a (sortJourneys l)

/-- The error thrown by `getBestRoute` when a station name is missing from
the graph (`throw new TypeError('Station not found in network')`), the
`NotFoundKind` of the specification's taxonomy. -/
inductive SearchError where
  | stationNotFound : SearchError
deriving DecidableEq, Repr

/-- Embeds `getBestRoute` (network.js): resolve both names (throwing when
either is absent), run the depth-first search from an empty journey with the
sentinel route context "origin", sort stably by changes then distance, and
truncate to `maxResults`. -/
def getBestRoute (g : Graph) (origin destination : String) (maxResults : Nat) :
    Except SearchError (List Journey) :=
  match lookupStation g origin, lookupStation g destination with
  | some _, some _ =>
    let possibleRoutes := doGetBestRoute g (searchFuel g) origin destination Journey.empty "origin"
    .ok ((sortJourneys possibleRoutes).take maxResults)
  | _, _ => .error .stationNotFound

/-- Embeds `Stop` (railway.js): a route-local stop record. -/
structure Stop where
  number : Int
  stationName : String
  stationId : Int
  distanceToNext : JSDist
  distanceToPrev : JSDist
deriving DecidableEq, Repr

/-- Embeds `Route` (railway.js). -/
structure Route where
  name : String
  stops : List Stop
  color : String
deriving DecidableEq, Repr

/-- The station-resolution step of the builder: reuse the station already
keyed by this name, otherwise insert `new Station(stop.number, stationName)`
(dictionary insertion appends). -/
def ensureStation (g : Graph) (number : Int) (name : String) : Graph :=
  if containsStation g name then g else g ++ [{ stationName := name, stationID := number, links := [] }]

/-- `station.addLink(link)` on the station keyed by `name`. -/
def addLinkTo (g : Graph) (name : String) (link : Link) : Graph :=
  g.map (fun st =>
    if st.stationName == name then { st with links := st.links ++ [link] } else st)

/-- One iteration of the builder's inner loop (network.js `network`): resolve
or create the current stop's station; if a previous stop exists and its
station is in the graph, add the backward link `current → previous` carrying
`stop.distanceToPrev` and then the forward link `previous → current` carrying
the previous stop's `distanceToNext`, both tagged with the route name. -/
def processStop (g : Graph) (routeName : String) : Option Stop → Stop → Graph
  | none, stop => ensureStation g stop.number stop.stationName
  | some p, stop =>
    if containsStation (ensureStation g stop.number stop.stationName) p.stationName then
      addLinkTo
        (addLinkTo (ensureStation g stop.number stop.stationName) stop.stationName
          { routeName := routeName, distance := stop.distanceToPrev,
            station := p.stationName, linklName := p.stationName })
        p.stationName
        { routeName := routeName, distance := p.distanceToNext,
          station := stop.stationName, linklName := stop.stationName }
    else ensureStation g stop.number stop.stationName

/-- The builder's inner loop over the stops of one route, carrying the
previous stop (`stops[i - 1]`). -/
def processStops : Graph → String → Option Stop → List Stop → Graph
  | g, _, _, [] => g
  | g, routeName, prev, stop :: rest =>
    processStops (processStop g routeName prev stop) routeName (some stop) rest

/-- Embeds the graph-building core of `network` (network.js): fold the routes
of the loaded railway network into the station graph.  (Reading and parsing
the JSON file is the out-of-scope data-loading collaborator.) -/
def network (routes : List Route) : Graph :=
  routes.foldl (fun g route => processStops g route.name none route.stops) []

/-- Specification-side count of the simple paths (no repeated station) from
`current` to `destination` that avoid `visited`, in the multigraph sense:
parallel links give distinct paths.  Follows the specification's
`totalSimplePaths(A, B)`. -/
def totalSimplePathsAux (g : Graph) : Nat → String → String → List String → Nat
  | 0, _, _, _ => 0
  | fuel + 1, current, destination, visited =>
    let visited2 := visited ++ [current]
    if current = destination then 1
    else
      ((linksOf g current).map (fun link =>
        if link.station ∈ visited2 then 0
        else totalSimplePathsAux g fuel link.station destination visited2)).sum

/-- The number of simple paths from `A` to `B` in the graph. -/
def totalSimplePaths (g : Graph) (A B : String) : Nat :=
  totalSimplePathsAux g (searchFuel g) A B []

/-- The set of all link targets of the graph: every station ever pushed by a
recursive call of the search (past the origin) lies in this set. -/
def targetSet (g : Graph) : Finset String :=
  (g.flatMap (fun st => st.links.map (fun link => link.station))).toFinset

/-- The depth-first search instrumented with the list of traversed edges,
each recorded as (target station name, route name).  Identical to
`doGetBestRoute` except for the extra ghost accumulator. -/
def doGetBestRouteSteps (g : Graph) :
    Nat → String → String → Journey → String → List (String × String) →
      List (Journey × List (String × String))
  | 0, _, _, _, _, _ => []
  | fuel + 1, origin, destination, journey, routeName, steps =>
    let j2 : Journey := { journey with stations := journey.stations ++ [origin] }
    if origin = destination then
      [({ j2 with success := true, text := j2.text ++ ("Arrive at " ++ destination) }, steps)]
    else
      (linksOf g origin).flatMap (fun link =>
        if link.station ∈ j2.stations then []
        else
          doGetBestRouteSteps g fuel link.station destination
            (updateJourneyForLink j2 origin link routeName) link.routeName
            (steps ++ [(link.station, link.routeName)]))

/-- The change lines of the narrative after the first edge: standing at
station `s` having arrived on route `r`, each further step to station `s1`
on route `r1` contributes "At s change to r1" exactly when the route
switches. -/
def changeLines (s r : String) : List (String × String) → String
  | [] => ""
  | (s1, r1) :: rest =>
    (if r1 ≠ r then "At " ++ s ++ " change to " ++ r1 ++ "\n" else "") ++ changeLines s1 r1 rest

/-- The narrative a journey starting at `s0` should carry after traversing
the given edges: an embark line for the first edge, then a change line for
every route switch. -/
def narrative (s0 : String) : List (String × String) → String
  | [] => ""
  | (s1, r1) :: rest => "Embark at " ++ s0 ++ " on " ++ r1 ++ "\n" ++ changeLines s1 r1 rest

/-- Number of route switches among consecutive traversed edges, the first
edge (route `r`) having already been taken. -/
def countChanges (r : String) : List (String × String) → Nat
  | [] => 0
  | (_, r1) :: rest => (if r1 ≠ r then 1 else 0) + countChanges r1 rest

/-- Number of route switches among the consecutive edges of a traversal: the
first edge is an embark, not a change. -/
def changesOfSteps : List (String × String) → Nat
  | [] => 0
  | (_, r1) :: rest => countChanges r1 rest

/-- State-passing translation of `doGetBestRoute`: the graph object handed to
the recursion is threaded through every recursive branch and returned, so
that any write to a `Station` or `Link` performed by the source would show up
as a changed final graph. -/
def doGetBestRouteS : Graph → Nat → String → String → Journey → String → List Journey × Graph
  | g, 0, _, _, _, _ => ([], g)
  | g, fuel + 1, origin, destination, journey, routeName =>
    let j2 : Journey := { journey with stations := journey.stations ++ [origin] }
    if origin = destination then
      ([{ j2 with success := true, text := j2.text ++ ("Arrive at " ++ destination) }], g)
    else
      (linksOf g origin).foldl (fun acc link =>
        if link.station ∈ j2.stations then acc
        else
          let r := doGetBestRouteS acc.2 fuel link.station destination
            (updateJourneyForLink j2 origin link routeName) link.routeName
          (acc.1 ++ r.1, r.2)) ([], g)

/-- State-passing translation of `getBestRoute`, returning the final graph
alongside the result. -/
def getBestRouteS (g : Graph) (origin destination : String) (maxResults : Nat) :
    Except SearchError (List Journey) × Graph :=
  match lookupStation g origin, lookupStation g destination with
  | some _, some _ =>
    let r := doGetBestRouteS g (searchFuel g) origin destination Journey.empty "origin"
    (.ok ((sortJourneys r.1).take maxResults), r.2)
  | _, _ => (.error .stationNotFound, g)

/-- The numeric identifier the built graph assigns to a station name. -/
def idOf (g : Graph) (name : String) : Option Int :=
  (lookupStation g name).map (fun st => st.stationID)

/-- The first stop record with the given station name, walking the routes in
order. -/
def firstStopNamed (routes : List Route) (name : String) : Option Stop :=
  (routes.flatMap (fun r => r.stops)).find? (fun s => s.stationName == name)

/-- Concrete data: a single route A - B - C named "Red". -/
def lineRoute : Route :=
  { name := "Red", color := "red", stops := [
      { number := 1, stationName := "A", stationId := 11,
        distanceToNext := .num 10, distanceToPrev := .nan },
      { number := 2, stationName := "B", stationId := 12,
        distanceToNext := .num 20, distanceToPrev := .num 10 },
      { number := 3, stationName := "C", stationId := 13,
        distanceToNext := .nan, distanceToPrev := .num 20 }] }

/-- Concrete data: the graph of `lineRoute`. -/
def lineGraph : Graph := network [lineRoute]

/-- Concrete data: route A - B named "Green" with distance 3. -/
def greenABRoute : Route :=
  { name := "Green", color := "green", stops := [
      { number := 1, stationName := "A", stationId := 1,
        distanceToNext := .num 3, distanceToPrev := .nan },
      { number := 2, stationName := "B", stationId := 2,
        distanceToNext := .nan, distanceToPrev := .num 3 }] }

/-- Concrete data: route A - B named "Red" with distance 10. -/
def redABRoute : Route :=
  { name := "Red", color := "red", stops := [
      { number := 1, stationName := "A", stationId := 1,
        distanceToNext := .num 10, distanceToPrev := .nan },
      { number := 2, stationName := "B", stationId := 2,
        distanceToNext := .nan, distanceToPrev := .num 10 }] }

/-- Concrete data: two parallel routes between A and B, giving two simple
paths. -/
def pairGraph : Graph := network [greenABRoute, redABRoute]

/-- Concrete data: route B - C named "Blue" with distance 7. -/
def blueBCRoute : Route :=
  { name := "Blue", color := "blue", stops := [
      { number := 1, stationName := "B", stationId := 2,
        distanceToNext := .num 7, distanceToPrev := .nan },
      { number := 2, stationName := "C", stationId := 3,
        distanceToNext := .nan, distanceToPrev := .num 7 }] }

/-- Concrete data: a graph with an interchange at B (route "Red" A - B, route
"Blue" B - C): the journey from A to C switches routes at B. -/
def changeGraph : Graph := network [redABRoute, blueBCRoute]

/-- Concrete data: a route whose name is literally the string "origin",
colliding with the sentinel route context of `doGetBestRoute`; it connects
A - B with distance 5. -/
def sentinelRoute : Route :=
  { name := "origin", color := "grey", stops := [
      { number := 1, stationName := "A", stationId := 1,
        distanceToNext := .num 5, distanceToPrev := .nan },
      { number := 2, stationName := "B", stationId := 2,
        distanceToNext := .nan, distanceToPrev := .num 5 }] }

/-- Concrete data: the graph of the route named "origin" (A - B) and the
route "Blue" (B - C); the only journey from A to C changes route at B. -/
def sentinelGraph : Graph := network [sentinelRoute, blueBCRoute]

/-- The update of `Journey.incDistance` never touches the visited-station
list. -/
theorem stations_incDistance (j : Journey) (amt : JSDist) :
    (j.incDistance amt).stations = j.stations := by
  cases amt with
  | nan => rfl
  | num x =>
    simp only [Journey.incDistance]
    split <;> rfl

/-- The per-link journey update never touches the visited-station list. -/
@[simp]
theorem stations_updateJourneyForLink (j : Journey) (o : String) (link : Link) (r : String) :
    (updateJourneyForLink j o link r).stations = j.stations := by
  unfold updateJourneyForLink
  rw [stations_incDistance]
  split
  · rfl
  · split <;> rfl

/-- Unfolding of the search at positive fuel, with the pushed journey
written out. -/
theorem doGetBestRoute_succ (g : Graph) (fuel : Nat) (origin destination : String)
    (journey : Journey) (routeName : String) :
    doGetBestRoute g (fuel + 1) origin destination journey routeName =
      (if origin = destination then
         [{ stations := journey.stations ++ [origin], distance := journey.distance,
            text := journey.text ++ ("Arrive at " ++ destination), success := true,
            changes := journey.changes }]
       else
         (linksOf g origin).flatMap (fun link =>
           if link.station ∈ journey.stations ++ [origin] then []
           else
             doGetBestRoute g fuel link.station destination
               (updateJourneyForLink
                 { journey with stations := journey.stations ++ [origin] }
                 origin link routeName) link.routeName)) := rfl

/-- Unfolding of the path count at positive fuel. -/
theorem totalSimplePathsAux_succ (g : Graph) (fuel : Nat) (current destination : String)
    (visited : List String) :
    totalSimplePathsAux g (fuel + 1) current destination visited =
      (if current = destination then 1
       else
         ((linksOf g current).map (fun link =>
           if link.station ∈ visited ++ [current] then 0
           else totalSimplePathsAux g fuel link.station destination (visited ++ [current]))).sum) := rfl

/-- Length of a flatMap is the sum of the lengths of the pieces. -/
theorem length_flatMap_eq_sum {α β : Type} (l : List α) (f : α → List β) :
    (l.flatMap f).length = (l.map (fun a => (f a).length)).sum := by
  induction l with
  | nil => rfl
  | cons a l ih => simp [List.flatMap_cons, ih]

/-- Inserting grows the length by one. -/
theorem length_insertJourney (a : Journey) (l : List Journey) :
    (insertJourney a l).length = l.length + 1 := by
  induction l with
  | nil => rfl
  | cons b l ih =>
    unfold insertJourney
    split
    · rfl
    · show (b :: insertJourney a l).length = (b :: l).length + 1
      simp only [List.length_cons, ih]

/-- The stable sort preserves length. -/
theorem length_sortJourneys (l : List Journey) :
    (sortJourneys l).length = l.length := by
  induction l with
  | nil => rfl
  | cons a l ih =>
    unfold sortJourneys
    rw [length_insertJourney, ih]
    rfl

/-- Sorting a one-element list is the identity. -/
theorem sortJourneys_singleton (j : Journey) : sortJourneys [j] = [j] := rfl

/-- When both station names resolve, `getBestRoute` sorts and truncates the
result of the depth-first search. -/
theorem getBestRoute_ok_eq (g : Graph) (origin destination : String) (n : Nat)
    (st1 st2 : Station) (h1 : lookupStation g origin = some st1)
    (h2 : lookupStation g destination = some st2) :
    getBestRoute g origin destination n =
      Except.ok ((sortJourneys
        (doGetBestRoute g (searchFuel g) origin destination Journey.empty "origin")).take n) := by
  unfold getBestRoute
  rw [h1, h2]

/-- C8: `Journey.incDistance` ignores a NaN or non-positive increment, and
accumulation never drives a non-negative total negative. -/
theorem claim_C8 (j : Journey) (amt : JSDist) :
    (amt = JSDist.nan → j.incDistance amt = j) ∧
    (∀ x : Int, amt = JSDist.num x → x ≤ 0 → j.incDistance amt = j) ∧
    (0 ≤ j.distance → 0 ≤ (j.incDistance amt).distance) := by
  cases amt with
  | nan => exact ⟨fun _ => rfl, fun y h _ => by simp at h, fun h => h⟩
  | num x =>
    refine ⟨fun h => by simp at h, fun y h hy => ?_, fun h => ?_⟩
    · obtain rfl : x = y := by injection h
      simp only [Journey.incDistance]
      rw [if_neg (by omega)]
    · simp only [Journey.incDistance]
      split
      · show 0 ≤ j.distance + x
        rename_i hx
        omega
      · exact h

/-- Witness for C8 at concrete inputs. -/
theorem claim_C8_witness :
    (Journey.empty.incDistance JSDist.nan = Journey.empty) ∧
    (Journey.empty.incDistance (JSDist.num (-4)) = Journey.empty) ∧
    (0 ≤ (Journey.empty.incDistance (JSDist.num 7)).distance) :=
  ⟨(claim_C8 Journey.empty JSDist.nan).1 rfl,
   (claim_C8 Journey.empty (JSDist.num (-4))).2.1 (-4) rfl (by decide),
   (claim_C8 Journey.empty (JSDist.num 7)).2.2 (by decide)⟩

/-- C5: an unknown origin or destination name makes `getBestRoute` fail with
the station-not-found error instead of returning an empty result. -/
theorem claim_C5 (g : Graph) (origin destination : String) (n : Nat)
    (h : lookupStation g origin = none ∨ lookupStation g destination = none) :
    getBestRoute g origin destination n = Except.error SearchError.stationNotFound := by
  unfold getBestRoute
  rcases h with h | h
  · cases hd : lookupStation g destination <;> rw [h]
  · cases ho : lookupStation g origin <;> rw [h]

/-- Witness for C5: the line graph has no station named "Z". -/
theorem claim_C5_witness :
    getBestRoute lineGraph "A" "Z" 3 = Except.error SearchError.stationNotFound :=
  claim_C5 lineGraph "A" "Z" 3 (Or.inr (by decide))

/-- C2: searching from a station to itself returns exactly one journey, with
distance 0, no changes, success, and the single-station path. -/
theorem claim_C2 (g : Graph) (S : String) (n : Nat)
    (hS : (lookupStation g S).isSome = true) (hn : 1 ≤ n) :
    getBestRoute g S S n =
      Except.ok [{ stations := [S], distance := 0, text := "Arrive at " ++ S,
                   success := true, changes := 0 }] := by
  obtain ⟨st, hst⟩ := Option.isSome_iff_exists.mp hS
  rw [getBestRoute_ok_eq g S S n st st hst hst]
  have h1 : doGetBestRoute g (searchFuel g) S S Journey.empty "origin" =
      [{ stations := [S], distance := 0, text := "Arrive at " ++ S,
         success := true, changes := 0 }] := by
    show doGetBestRoute g (totalLinks g + 1 + 1) S S Journey.empty "origin" = _
    rw [doGetBestRoute_succ]
    simp [Journey.empty]
  rw [h1, sortJourneys_singleton, List.take_of_length_le (by simpa using hn)]

/-- The number of journeys found by the search is the number of simple paths
enumerated with the same fuel, for any starting journey. -/
theorem length_doGetBestRoute (g : Graph) :
    ∀ (fuel : Nat) (origin destination : String) (j : Journey) (routeName : String),
      (doGetBestRoute g fuel origin destination j routeName).length =
        totalSimplePathsAux g fuel origin destination j.stations := by
  intro fuel
  induction fuel with
  | zero => intro o d j r; rfl
  | succ fuel ih =>
    intro o d j r
    rw [doGetBestRoute_succ, totalSimplePathsAux_succ]
    by_cases h : o = d
    · rw [if_pos h, if_pos h]
      rfl
    · rw [if_neg h, if_neg h, length_flatMap_eq_sum]
      refine congrArg List.sum (List.map_congr_left ?_)
      intro link _
      by_cases hm : link.station ∈ j.stations ++ [o]
      · rw [if_pos hm, if_pos hm]
        rfl
      · rw [if_neg hm, if_neg hm, ih]
        rw [stations_updateJourneyForLink]

/-- C1: when both stations exist and `n` is positive, the result list has
length `min n (totalSimplePaths g A B)`: the search enumerates every simple
path exactly once and the sorted list is truncated to `n` entries. -/
theorem claim_C1 (g : Graph) (A B : String) (n : Nat)
    (hA : (lookupStation g A).isSome = true) (hB : (lookupStation g B).isSome = true)
    (hn : 1 ≤ n) :
    ∃ l, getBestRoute g A B n = Except.ok l ∧
      l.length = min n (totalSimplePaths g A B) := by
  obtain ⟨st1, h1⟩ := Option.isSome_iff_exists.mp hA
  obtain ⟨st2, h2⟩ := Option.isSome_iff_exists.mp hB
  refine ⟨_, getBestRoute_ok_eq g A B n st1 st2 h1 h2, ?_⟩
  rw [List.length_take, length_sortJourneys, length_doGetBestRoute]
  rfl

/-- Witness for C1: the parallel-routes graph has two simple paths from A to
B, and asking for one returns exactly one. -/
theorem claim_C1_witness :
    ∃ l, getBestRoute pairGraph "A" "B" 1 = Except.ok l ∧
      l.length = min 1 (totalSimplePaths pairGraph "A" "B") :=
  claim_C1 pairGraph "A" "B" 1 (by decide) (by decide) (by decide)

/-- The comparator relation is transitive. -/
theorem journeyLE_trans (a b c : Journey) (hab : journeyLE a b = true)
    (hbc : journeyLE b c = true) : journeyLE a c = true := by
  simp only [journeyLE, Bool.or_eq_true, decide_eq_true_eq, Bool.and_eq_true,
    beq_iff_eq] at *
  omega

/-- The comparator relation is total. -/
theorem journeyLE_total (a b : Journey) :
    journeyLE a b = true ∨ journeyLE b a = true := by
  simp only [journeyLE, Bool.or_eq_true, decide_eq_true_eq, Bool.and_eq_true,
    beq_iff_eq]
  omega

/-- Membership in an insertion. -/
theorem mem_insertJourney (a x : Journey) (l : List Journey) :
    x ∈ insertJourney a l ↔ x = a ∨ x ∈ l := by
  induction l with
  | nil => simp [insertJourney]
  | cons b l ih =>
    unfold insertJourney
    split
    · simp [List.mem_cons]
    · simp [List.mem_cons, ih]
      tauto

/-- Inserting into a sorted list keeps it sorted. -/
theorem pairwise_insertJourney (a : Journey) (l : List Journey)
    (h : l.Pairwise (fun x y => journeyLE x y = true)) :
    (insertJourney a l).Pairwise (fun x y => journeyLE x y = true) := by
  induction l with
  | nil => simp [insertJourney]
  | cons b l ih =>
    rw [List.pairwise_cons] at h
    obtain ⟨hb, hl⟩ := h
    unfold insertJourney
    split
    · rename_i hab
      rw [List.pairwise_cons]
      refine ⟨?_, by rw [List.pairwise_cons]; exact ⟨hb, hl⟩⟩
      intro y hy
      rcases List.mem_cons.mp hy with rfl | hy
      · exact hab
      · exact journeyLE_trans a b y hab (hb y hy)
    · rename_i hab
      rw [List.pairwise_cons]
      refine ⟨?_, ih hl⟩
      intro y hy
      rcases (mem_insertJourney a y l).mp hy with rfl | hy
      · rcases journeyLE_total b y with h | h
        · exact h
        · exact absurd h hab
      · exact hb y hy

/-- The stable sort produces a list sorted under the comparator. -/
theorem pairwise_sortJourneys (l : List Journey) :
    (sortJourneys l).Pairwise (fun x y => journeyLE x y = true) := by
  induction l with
  | nil => exact List.Pairwise.nil
  | cons a l ih => exact pairwise_insertJourney a _ ih

/-- C4: any two journeys of a result list, in order, are sorted by ascending
change count and then ascending distance. -/
theorem claim_C4 (g : Graph) (A B : String) (n : Nat) (l : List Journey)
    (h : getBestRoute g A B n = Except.ok l) (i j : Nat)
    (hi : i < l.length) (hj : j < l.length) (hij : i < j) :
    (l.get ⟨i, hi⟩).changes < (l.get ⟨j, hj⟩).changes ∨
      ((l.get ⟨i, hi⟩).changes = (l.get ⟨j, hj⟩).changes ∧
        (l.get ⟨i, hi⟩).distance ≤ (l.get ⟨j, hj⟩).distance) := by
  cases ho : lookupStation g A with
  | none =>
    exfalso
    unfold getBestRoute at h
    rw [ho] at h
    cases hd : lookupStation g B <;> rw [hd] at h <;> simp at h
  | some st1 =>
    cases hd : lookupStation g B with
    | none =>
      exfalso
      unfold getBestRoute at h
      rw [ho, hd] at h
      simp at h
    | some st2 =>
      rw [getBestRoute_ok_eq g A B n st1 st2 ho hd] at h
      have hl : (sortJourneys
          (doGetBestRoute g (searchFuel g) A B Journey.empty "origin")).take n = l := by
        injection h
      subst hl
      have hp := (pairwise_sortJourneys
        (doGetBestRoute g (searchFuel g) A B Journey.empty "origin")).take (n := n)
      have hle := List.pairwise_iff_getElem.mp hp i j hi hj hij
      simp only [journeyLE, Bool.or_eq_true, decide_eq_true_eq, Bool.and_eq_true,
        beq_iff_eq] at hle
      simpa using hle

/-- Witness for C4 on the parallel-routes graph, whose query returns two
journeys. -/
theorem claim_C4_witness :
    ((sortJourneys (doGetBestRoute pairGraph (searchFuel pairGraph) "A" "B"
        Journey.empty "origin")).take 5).length = 2 ∧
    ((((sortJourneys (doGetBestRoute pairGraph (searchFuel pairGraph) "A" "B"
        Journey.empty "origin")).take 5).get ⟨0, by decide⟩).changes <
      (((sortJourneys (doGetBestRoute pairGraph (searchFuel pairGraph) "A" "B"
        Journey.empty "origin")).take 5).get ⟨1, by decide⟩).changes ∨
      ((((sortJourneys (doGetBestRoute pairGraph (searchFuel pairGraph) "A" "B"
        Journey.empty "origin")).take 5).get ⟨0, by decide⟩).changes =
        (((sortJourneys (doGetBestRoute pairGraph (searchFuel pairGraph) "A" "B"
          Journey.empty "origin")).take 5).get ⟨1, by decide⟩).changes ∧
       (((sortJourneys (doGetBestRoute pairGraph (searchFuel pairGraph) "A" "B"
          Journey.empty "origin")).take 5).get ⟨0, by decide⟩).distance ≤
        (((sortJourneys (doGetBestRoute pairGraph (searchFuel pairGraph) "A" "B"
          Journey.empty "origin")).take 5).get ⟨1, by decide⟩).distance)) :=
  ⟨by decide,
   claim_C4 pairGraph "A" "B" 5 _ rfl 0 1 (by decide) (by decide) (by decide)⟩

/-- A station found by lookup is a member of the graph. -/
theorem mem_of_lookupStation (g : Graph) (name : String) (st : Station)
    (h : lookupStation g name = some st) : st ∈ g :=
  List.mem_of_find?_eq_some h

/-- Targets of links reachable through lookup lie in the target set. -/
theorem mem_targetSet_of_mem_linksOf (g : Graph) (o : String) (link : Link)
    (h : link ∈ linksOf g o) : link.station ∈ targetSet g := by
  unfold linksOf at h
  cases hlo : lookupStation g o with
  | none => rw [hlo] at h; simp at h
  | some st =>
    rw [hlo] at h
    have hmem : st ∈ g := mem_of_lookupStation g o st hlo
    unfold targetSet
    rw [List.mem_toFinset, List.mem_flatMap]
    exact ⟨st, hmem, List.mem_map.mpr ⟨link, h, rfl⟩⟩

/-- The target set is no larger than the total link count. -/
theorem card_targetSet_le (g : Graph) : (targetSet g).card ≤ totalLinks g := by
  unfold targetSet totalLinks
  calc (g.flatMap (fun st => st.links.map (fun link => link.station))).toFinset.card
      ≤ (g.flatMap (fun st => st.links.map (fun link => link.station))).length :=
        List.toFinset_card_le _
    _ = (g.map (fun st => st.links.length)).sum := by
        rw [length_flatMap_eq_sum]
        congr 1
        exact List.map_congr_left (fun st _ => List.length_map _ _)

/-- Pushing a fresh target onto the visited list strictly shrinks the
unvisited part of the target set. -/
theorem card_sdiff_push (T : Finset String) (l : List String) (x : String)
    (hxT : x ∈ T) (hxl : x ∉ l) :
    (T \ (l ++ [x]).toFinset).card + 1 ≤ (T \ l.toFinset).card := by
  have h1 : (l ++ [x]).toFinset = insert x l.toFinset := by
    rw [List.toFinset_append]
    have h2 : ([x] : List String).toFinset = {x} := by simp
    rw [h2, Finset.union_comm, ← Finset.insert_eq]
  rw [h1, Finset.sdiff_insert]
  have hx : x ∈ T \ l.toFinset :=
    Finset.mem_sdiff.mpr ⟨hxT, fun hc => hxl (List.mem_toFinset.mp hc)⟩
  rw [Finset.card_erase_of_mem hx]
  have hpos : 0 < (T \ l.toFinset).card := Finset.card_pos.mpr ⟨x, hx⟩
  omega

/-- Pointwise equal functions give equal flatMaps. -/
theorem flatMap_congr {α β : Type} (l : List α) (f1 f2 : α → List β)
    (h : ∀ a ∈ l, f1 a = f2 a) : l.flatMap f1 = l.flatMap f2 := by
  unfold List.flatMap
  exact congrArg List.flatten (List.map_congr_left h)

/-- The search is independent of the fuel once the fuel exceeds the number of
unvisited link targets: the recursion terminates within that bound. -/
theorem doGetBestRoute_fuel_congr (g : Graph) :
    ∀ (f1 f2 : Nat) (origin destination : String) (j : Journey) (routeName : String),
      (targetSet g \ (j.stations ++ [origin]).toFinset).card + 1 ≤ f1 →
      (targetSet g \ (j.stations ++ [origin]).toFinset).card + 1 ≤ f2 →
      doGetBestRoute g f1 origin destination j routeName =
        doGetBestRoute g f2 origin destination j routeName := by
  intro f1
  induction f1 with
  | zero => intro f2 o d j r h1 h2; omega
  | succ f1 ih =>
    intro f2 o d j r h1 h2
    cases f2 with
    | zero => omega
    | succ f2 =>
      rw [doGetBestRoute_succ, doGetBestRoute_succ]
      by_cases h : o = d
      · rw [if_pos h, if_pos h]
      · rw [if_neg h, if_neg h]
        apply flatMap_congr
        intro link hlink
        by_cases hm : link.station ∈ j.stations ++ [o]
        · rw [if_pos hm, if_pos hm]
        · rw [if_neg hm, if_neg hm]
          have htar : link.station ∈ targetSet g :=
            mem_targetSet_of_mem_linksOf g o link hlink
          have hstep := card_sdiff_push (targetSet g) (j.stations ++ [o]) link.station htar hm
          have hs : (updateJourneyForLink { j with stations := j.stations ++ [o] }
              o link r).stations ++ [link.station] = (j.stations ++ [o]) ++ [link.station] := by
            rw [stations_updateJourneyForLink]
          apply ih <;> rw [hs] <;> omega

/-- Every journey the search emits has a duplicate-free station list,
provided the starting journey does. -/
theorem nodup_doGetBestRoute (g : Graph) :
    ∀ (fuel : Nat) (origin destination : String) (j : Journey) (routeName : String),
      (j.stations ++ [origin]).Nodup →
      ∀ jr ∈ doGetBestRoute g fuel origin destination j routeName, jr.stations.Nodup := by
  intro fuel
  induction fuel with
  | zero => intro o d j r h jr hjr; simp [doGetBestRoute] at hjr
  | succ fuel ih =>
    intro o d j r h jr hjr
    rw [doGetBestRoute_succ] at hjr
    by_cases hod : o = d
    · rw [if_pos hod] at hjr
      rcases List.mem_singleton.mp hjr with rfl
      exact h
    · rw [if_neg hod] at hjr
      rw [List.mem_flatMap] at hjr
      obtain ⟨link, hlink, hmem⟩ := hjr
      by_cases hm : link.station ∈ j.stations ++ [o]
      · rw [if_pos hm] at hmem
        simp at hmem
      · rw [if_neg hm] at hmem
        refine ih link.station d _ link.routeName ?_ jr hmem
        rw [stations_updateJourneyForLink]
        show ((j.stations ++ [o]) ++ [link.station]).Nodup
        rw [List.nodup_append]
        refine ⟨h, List.nodup_singleton _, ?_⟩
        intro a ha hb
        rw [List.mem_singleton] at hb
        subst hb
        exact hm ha

/-- Sorting does not change membership. -/
theorem mem_sortJourneys (x : Journey) (l : List Journey) :
    x ∈ sortJourneys l ↔ x ∈ l := by
  induction l with
  | nil => simp [sortJourneys]
  | cons a l ih =>
    unfold sortJourneys
    rw [mem_insertJourney, ih, List.mem_cons]

/-- C3: the search stabilizes at the chosen fuel (the recursion terminates
within the bound, on cyclic graphs included), and every returned journey
visits no station twice. -/
theorem claim_C3 (g : Graph) (A B : String) (n : Nat) (f : Nat)
    (hf : searchFuel g ≤ f) :
    (doGetBestRoute g f A B Journey.empty "origin" =
      doGetBestRoute g (searchFuel g) A B Journey.empty "origin") ∧
    (∀ l, getBestRoute g A B n = Except.ok l → ∀ jr ∈ l, jr.stations.Nodup) := by
  constructor
  · have hb : (targetSet g \ (Journey.empty.stations ++ [A]).toFinset).card + 1 ≤ searchFuel g := by
      have h1 : (targetSet g \ (Journey.empty.stations ++ [A]).toFinset).card ≤ (targetSet g).card :=
        Finset.card_le_card (Finset.sdiff_subset)
      have h2 := card_targetSet_le g
      unfold searchFuel
      omega
    exact doGetBestRoute_fuel_congr g f (searchFuel g) A B Journey.empty "origin"
      (le_trans hb hf) hb
  · intro l hl jr hjr
    cases ho : lookupStation g A with
    | none =>
      exfalso
      unfold getBestRoute at hl
      rw [ho] at hl
      cases hd : lookupStation g B <;> rw [hd] at hl <;> simp at hl
    | some st1 =>
      cases hd : lookupStation g B with
      | none =>
        exfalso
        unfold getBestRoute at hl
        rw [ho, hd] at hl
        simp at hl
      | some st2 =>
        rw [getBestRoute_ok_eq g A B n st1 st2 ho hd] at hl
        have hsub : l ⊆ sortJourneys
            (doGetBestRoute g (searchFuel g) A B Journey.empty "origin") := by
          have : (sortJourneys
              (doGetBestRoute g (searchFuel g) A B Journey.empty "origin")).take n = l := by
            injection hl
          rw [← this]
          exact List.take_subset n _
        have hmem := (mem_sortJourneys jr _).mp (hsub hjr)
        exact nodup_doGetBestRoute g (searchFuel g) A B Journey.empty "origin"
          (by simp [Journey.empty]) jr hmem

/-- Witness for C3: extra fuel does not change the result on the line graph,
and the returned journey A - B - C is duplicate-free. -/
theorem claim_C3_witness :
    (doGetBestRoute lineGraph (searchFuel lineGraph + 5) "A" "C" Journey.empty "origin" =
      doGetBestRoute lineGraph (searchFuel lineGraph) "A" "C" Journey.empty "origin") ∧
    ({ stations := ["A", "B", "C"], distance := 30,
       text := "Embark at A on Red\nArrive at C", success := true,
       changes := 0 } : Journey).stations.Nodup := by
  have h := claim_C3 lineGraph "A" "C" 5 (searchFuel lineGraph + 5) (by omega)
  exact ⟨h.1, h.2 _ rfl _ (by decide)⟩

/-- Unfolding of the state-passing search at positive fuel. -/
theorem doGetBestRouteS_succ (g : Graph) (fuel : Nat) (origin destination : String)
    (journey : Journey) (routeName : String) :
    doGetBestRouteS g (fuel + 1) origin destination journey routeName =
      (if origin = destination then
         ([{ stations := journey.stations ++ [origin], distance := journey.distance,
             text := journey.text ++ ("Arrive at " ++ destination), success := true,
             changes := journey.changes }], g)
       else
         (linksOf g origin).foldl (fun acc link =>
           if link.station ∈ journey.stations ++ [origin] then acc
           else
             let rr := doGetBestRouteS acc.2 fuel link.station destination
               (updateJourneyForLink
                 { journey with stations := journey.stations ++ [origin] }
                 origin link routeName) link.routeName
             (acc.1 ++ rr.1, rr.2)) ([], g)) := rfl

/-- The state-passing search returns the graph it was given, unchanged, and
agrees with the pure search. -/
theorem doGetBestRouteS_eq (g : Graph) :
    ∀ (fuel : Nat) (origin destination : String) (j : Journey) (routeName : String),
      doGetBestRouteS g fuel origin destination j routeName =
        (doGetBestRoute g fuel origin destination j routeName, g) := by
  intro fuel
  induction fuel with
  | zero => intro o d j r; rfl
  | succ fuel ih =>
    intro o d j r
    rw [doGetBestRouteS_succ, doGetBestRoute_succ]
    by_cases h : o = d
    · rw [if_pos h, if_pos h]
    · rw [if_neg h, if_neg h]
      suffices hfold : ∀ (links : List Link) (init : List Journey),
          links.foldl (fun acc link =>
            if link.station ∈ j.stations ++ [o] then acc
            else
              let rr := doGetBestRouteS acc.2 fuel link.station d
                (updateJourneyForLink { j with stations := j.stations ++ [o] }
                  o link r) link.routeName
              (acc.1 ++ rr.1, rr.2)) (init, g) =
          (init ++ links.flatMap (fun link =>
            if link.station ∈ j.stations ++ [o] then []
            else doGetBestRoute g fuel link.station d
              (updateJourneyForLink { j with stations := j.stations ++ [o] }
                o link r) link.routeName), g) by
        have hh := hfold (linksOf g o) []
        rw [hh, List.nil_append]
      intro links
      induction links with
      | nil => intro init; simp
      | cons link links ihl =>
        intro init
        rw [List.foldl_cons]
        by_cases hm : link.station ∈ j.stations ++ [o]
        · show List.foldl _ (if link.station ∈ j.stations ++ [o] then (init, g) else _) links = _
          rw [if_pos hm, ihl init, List.flatMap_cons, if_pos hm, List.nil_append]
        · show List.foldl _ (if link.station ∈ j.stations ++ [o] then (init, g) else _) links = _
          rw [if_neg hm]
          show List.foldl _
            (init ++ (doGetBestRouteS g fuel link.station d
              (updateJourneyForLink { j with stations := j.stations ++ [o] }
                o link r) link.routeName).1,
             (doGetBestRouteS g fuel link.station d
              (updateJourneyForLink { j with stations := j.stations ++ [o] }
                o link r) link.routeName).2) links = _
          rw [ih]
          show List.foldl _ (init ++ doGetBestRoute g fuel link.station d
            (updateJourneyForLink { j with stations := j.stations ++ [o] }
              o link r) link.routeName, g) links = _
          rw [ihl, List.flatMap_cons, if_neg hm, List.append_assoc]

/-- C9: the search has no side effect on the graph: the state-passing
translation hands back the very graph it was given, at every fuel and for the
full query, and its results agree with the pure search. -/
theorem claim_C9 (g : Graph) (origin destination : String) (n : Nat) :
    (∀ (fuel : Nat) (j : Journey) (routeName : String),
      doGetBestRouteS g fuel origin destination j routeName =
        (doGetBestRoute g fuel origin destination j routeName, g)) ∧
    getBestRouteS g origin destination n = (getBestRoute g origin destination n, g) := by
  refine ⟨fun fuel j r => doGetBestRouteS_eq g fuel origin destination j r, ?_⟩
  unfold getBestRouteS getBestRoute
  cases ho : lookupStation g origin <;> cases hd : lookupStation g destination
  · rfl
  · rfl
  · rfl
  · rw [doGetBestRouteS_eq]

/-- Looking up after `addLinkTo`: the found station gets the link appended
exactly when its name matches. -/
theorem lookupStation_addLinkTo (g : Graph) (name : String) (link : Link) (n' : String) :
    lookupStation (addLinkTo g name link) n' =
      (lookupStation g n').map (fun st =>
        if st.stationName == name then { st with links := st.links ++ [link] } else st) := by
  unfold lookupStation addLinkTo
  rw [List.find?_map]
  suffices h : ((fun st : Station => st.stationName == n') ∘
      (fun st => if st.stationName == name then { st with links := st.links ++ [link] } else st)) =
      (fun st : Station => st.stationName == n') by rw [h]
  funext st
  show ((if st.stationName == name then { st with links := st.links ++ [link] } else st).stationName
    == n') = (st.stationName == n')
  split <;> rfl

/-- `ensureStation` keeps every station's links unchanged. -/
theorem linksOf_ensureStation (g : Graph) (num : Int) (nm name : String) :
    linksOf (ensureStation g num nm) name = linksOf g name := by
  unfold ensureStation
  split
  · rfl
  · unfold linksOf lookupStation
    rw [List.find?_append]
    cases hfind : g.find? (fun st => st.stationName == name) with
    | some st => rfl
    | none =>
      by_cases hnm : nm = name
      · subst hnm
        rw [List.find?_cons_of_pos _ (by simp)]
        rfl
      · rw [List.find?_cons_of_neg _ (by simp [hnm])]
        rfl

/-- The ensured name is present afterwards. -/
theorem containsStation_ensureStation_self (g : Graph) (num : Int) (nm : String) :
    containsStation (ensureStation g num nm) nm = true := by
  unfold ensureStation
  split
  · assumption
  · rename_i hc
    unfold containsStation lookupStation
    rw [List.find?_append]
    have hnone : g.find? (fun st => st.stationName == nm) = none := by
      cases hfind : g.find? (fun st => st.stationName == nm) with
      | none => rfl
      | some st =>
        exfalso
        apply hc
        unfold containsStation lookupStation
        rw [hfind]
        rfl
    rw [hnone, List.find?_cons_of_pos _ (by simp)]
    rfl

/-- `addLinkTo` preserves presence of names. -/
theorem containsStation_addLinkTo (g : Graph) (name : String) (link : Link) (n' : String) :
    containsStation (addLinkTo g name link) n' = containsStation g n' := by
  unfold containsStation
  rw [lookupStation_addLinkTo]
  exact Option.isSome_map'

/-- Appending a link to the named station, seen through `linksOf`. -/
theorem linksOf_addLinkTo_self (g : Graph) (name : String) (link : Link)
    (h : containsStation g name = true) :
    linksOf (addLinkTo g name link) name = linksOf g name ++ [link] := by
  obtain ⟨st, hst⟩ := Option.isSome_iff_exists.mp h
  have hname : st.stationName = name := by
    have hp := List.find?_some hst
    simpa using hp
  unfold linksOf
  rw [lookupStation_addLinkTo, hst]
  simp [hname]

/-- Other stations' links are untouched by `addLinkTo`. -/
theorem linksOf_addLinkTo_other (g : Graph) (name : String) (link : Link) (n' : String)
    (h : n' ≠ name) : linksOf (addLinkTo g name link) n' = linksOf g n' := by
  unfold linksOf
  rw [lookupStation_addLinkTo]
  cases hst : lookupStation g n' with
  | none => rfl
  | some st =>
    have hname : st.stationName = n' := by
      have hp := List.find?_some hst
      simpa using hp
    simp [hname, h]

/-- C7: handling one adjacent stop pair (previous, current) appends exactly
the backward edge current → previous carrying `stop.distanceToPrev` and the
forward edge previous → current carrying the previous stop's
`distanceToNext`, both tagged with the route name, and touches no other
station; the first stop of a route (no previous) adds no edge at all. -/
theorem claim_C7 (g : Graph) (routeName : String) (p stop : Stop)
    (hp : containsStation (ensureStation g stop.number stop.stationName) p.stationName = true) :
    (p.stationName ≠ stop.stationName →
      linksOf (processStop g routeName (some p) stop) stop.stationName =
        linksOf g stop.stationName ++
          [{ routeName := routeName, distance := stop.distanceToPrev,
             station := p.stationName, linklName := p.stationName }] ∧
      linksOf (processStop g routeName (some p) stop) p.stationName =
        linksOf g p.stationName ++
          [{ routeName := routeName, distance := p.distanceToNext,
             station := stop.stationName, linklName := stop.stationName }]) ∧
    (p.stationName = stop.stationName →
      linksOf (processStop g routeName (some p) stop) stop.stationName =
        linksOf g stop.stationName ++
          [{ routeName := routeName, distance := stop.distanceToPrev,
             station := p.stationName, linklName := p.stationName },
           { routeName := routeName, distance := p.distanceToNext,
             station := stop.stationName, linklName := stop.stationName }]) ∧
    (∀ name, name ≠ stop.stationName → name ≠ p.stationName →
      linksOf (processStop g routeName (some p) stop) name = linksOf g name) ∧
    (∀ name, linksOf (processStop g routeName none stop) name = linksOf g name) := by
  have hstep : processStop g routeName (some p) stop =
      addLinkTo (addLinkTo (ensureStation g stop.number stop.stationName)
          stop.stationName
          { routeName := routeName, distance := stop.distanceToPrev,
            station := p.stationName, linklName := p.stationName })
        p.stationName
        { routeName := routeName, distance := p.distanceToNext,
          station := stop.stationName, linklName := stop.stationName } := by
    show (if containsStation (ensureStation g stop.number stop.stationName) p.stationName = true
        then addLinkTo
          (addLinkTo (ensureStation g stop.number stop.stationName) stop.stationName
            { routeName := routeName, distance := stop.distanceToPrev,
              station := p.stationName, linklName := p.stationName })
          p.stationName
          { routeName := routeName, distance := p.distanceToNext,
            station := stop.stationName, linklName := stop.stationName }
        else ensureStation g stop.number stop.stationName) = _
    rw [if_pos hp]
  have hcs : containsStation (ensureStation g stop.number stop.stationName)
      stop.stationName = true := containsStation_ensureStation_self g stop.number stop.stationName
  refine ⟨fun hne => ⟨?_, ?_⟩, fun heq => ?_, fun name h1 h2 => ?_, fun name => ?_⟩
  · rw [hstep, linksOf_addLinkTo_other _ _ _ _ (Ne.symm hne),
      linksOf_addLinkTo_self _ _ _ hcs, linksOf_ensureStation]
  · rw [hstep, linksOf_addLinkTo_self _ _ _ (by rw [containsStation_addLinkTo]; exact hp),
      linksOf_addLinkTo_other _ _ _ _ hne, linksOf_ensureStation]
  · rw [hstep, heq, linksOf_addLinkTo_self _ _ _ (by rw [containsStation_addLinkTo]; exact hcs),
      linksOf_addLinkTo_self _ _ _ hcs, linksOf_ensureStation, List.append_assoc]
    rfl
  · rw [hstep, linksOf_addLinkTo_other _ _ _ _ h2, linksOf_addLinkTo_other _ _ _ _ h1,
      linksOf_ensureStation]
  · show linksOf (ensureStation g stop.number stop.stationName) name = linksOf g name
    exact linksOf_ensureStation g stop.number stop.stationName name

/-- Witness for C7 on a concrete pair of stops of the "Green" route. -/
theorem claim_C7_witness :
    linksOf (processStop [{ stationName := "A", stationID := 1, links := [] }] "Green"
        (some { number := 1, stationName := "A", stationId := 1,
                distanceToNext := JSDist.num 3, distanceToPrev := JSDist.nan })
        { number := 2, stationName := "B", stationId := 2,
          distanceToNext := JSDist.nan, distanceToPrev := JSDist.num 3 }) "B" =
      linksOf [{ stationName := "A", stationID := 1, links := [] }] "B" ++
        [{ routeName := "Green", distance := JSDist.num 3, station := "A", linklName := "A" }] ∧
    linksOf (processStop [{ stationName := "A", stationID := 1, links := [] }] "Green"
        (some { number := 1, stationName := "A", stationId := 1,
                distanceToNext := JSDist.num 3, distanceToPrev := JSDist.nan })
        { number := 2, stationName := "B", stationId := 2,
          distanceToNext := JSDist.nan, distanceToPrev := JSDist.num 3 }) "A" =
      linksOf [{ stationName := "A", stationID := 1, links := [] }] "A" ++
        [{ routeName := "Green", distance := JSDist.num 3, station := "B", linklName := "B" }] :=
  (claim_C7 [{ stationName := "A", stationID := 1, links := [] }] "Green"
    { number := 1, stationName := "A", stationId := 1,
      distanceToNext := JSDist.num 3, distanceToPrev := JSDist.nan }
    { number := 2, stationName := "B", stationId := 2,
      distanceToNext := JSDist.nan, distanceToPrev := JSDist.num 3 }
    (by decide)).1 (by decide)

/-- `addLinkTo` never changes a station's identifier. -/
theorem idOf_addLinkTo (g : Graph) (name : String) (link : Link) (n' : String) :
    idOf (addLinkTo g name link) n' = idOf g n' := by
  unfold idOf
  rw [lookupStation_addLinkTo]
  cases lookupStation g n' with
  | none => rfl
  | some st =>
    show some (if st.stationName == name then
        { st with links := st.links ++ [link] } else st).stationID = some st.stationID
    split <;> rfl

/-- The identifier after `ensureStation`: an existing station keeps its
identifier; a missing station named `nm` is created with identifier `num`. -/
theorem idOf_ensureStation (g : Graph) (num : Int) (nm n' : String) :
    idOf (ensureStation g num nm) n' =
      (idOf g n').or (if nm == n' then some num else none) := by
  unfold ensureStation
  split
  · rename_i hc
    by_cases hnm : nm = n'
    · subst hnm
      obtain ⟨st, hst⟩ := Option.isSome_iff_exists.mp hc
      unfold idOf
      rw [hst]
      rfl
    · rw [if_neg (by simpa using hnm), Option.or_none]
  · rename_i hc
    unfold idOf lookupStation
    rw [List.find?_append]
    cases hfind : g.find? (fun st => st.stationName == n') with
    | some st => rfl
    | none =>
      by_cases hnm : nm = n'
      · subst hnm
        rw [List.find?_cons_of_pos _ (by simp), if_pos (by simp)]
        rfl
      · rw [List.find?_cons_of_neg _ (by simp [hnm]), if_neg (by simpa using hnm)]
        rfl

/-- The identifier after one builder step: an existing station keeps its
identifier; a station first created here takes the stop's route-local
`number`. -/
theorem idOf_processStop (g : Graph) (routeName : String) (prev : Option Stop)
    (stop : Stop) (n' : String) :
    idOf (processStop g routeName prev stop) n' =
      (idOf g n').or (if stop.stationName == n' then some stop.number else none) := by
  cases prev with
  | none =>
    show idOf (ensureStation g stop.number stop.stationName) n' = _
    exact idOf_ensureStation g stop.number stop.stationName n'
  | some p =>
    show idOf (if containsStation (ensureStation g stop.number stop.stationName)
          p.stationName = true
        then addLinkTo
          (addLinkTo (ensureStation g stop.number stop.stationName) stop.stationName
            { routeName := routeName, distance := stop.distanceToPrev,
              station := p.stationName, linklName := p.stationName })
          p.stationName
          { routeName := routeName, distance := p.distanceToNext,
            station := stop.stationName, linklName := stop.stationName }
        else ensureStation g stop.number stop.stationName) n' = _
    split
    · rw [idOf_addLinkTo, idOf_addLinkTo]
      exact idOf_ensureStation g stop.number stop.stationName n'
    · exact idOf_ensureStation g stop.number stop.stationName n'

/-- The identifier after a whole route: the first stop of the route bearing
the name wins, unless the station already existed. -/
theorem idOf_processStops (routeName : String) (n' : String) :
    ∀ (stops : List Stop) (g : Graph) (prev : Option Stop),
      idOf (processStops g routeName prev stops) n' =
        (idOf g n').or ((stops.find? (fun s => s.stationName == n')).map (fun s => s.number)) := by
  intro stops
  induction stops with
  | nil =>
    intro g prev
    show idOf g n' = _
    rw [show (Option.map (fun s : Stop => s.number)
      (List.find? (fun s => s.stationName == n') [])) = none from rfl, Option.or_none]
  | cons s rest ih =>
    intro g prev
    show idOf (processStops (processStop g routeName prev s) routeName (some s) rest) n' = _
    rw [ih, idOf_processStop, Option.or_assoc]
    by_cases hs : (s.stationName == n') = true
    · have hfind : List.find? (fun t : Stop => t.stationName == n') (s :: rest) = some s :=
        List.find?_cons_of_pos rest hs
      rw [hfind, if_pos hs, Option.or_some]
      rfl
    · have hfind : List.find? (fun t : Stop => t.stationName == n') (s :: rest) =
          List.find? (fun t : Stop => t.stationName == n') rest :=
        List.find?_cons_of_neg rest (by simpa using hs)
      rw [hfind, if_neg hs, Option.none_or]

/-- C10: in the built graph every station's `stationID` is the `number`
field (route-local 1-based position) of the first stop record encountered
with that name, not the stop's `stationId`; concretely, in `sentinelGraph`
the distinct stations B and C share `stationID` 2 while C's stop record has
`stationId` 3. -/
theorem claim_C10 :
    (∀ (routes : List Route) (name : String),
      idOf (network routes) name = (firstStopNamed routes name).map (fun s => s.number)) ∧
    (idOf sentinelGraph "B" = some 2 ∧ idOf sentinelGraph "C" = some 2 ∧
      (firstStopNamed [sentinelRoute, blueBCRoute] "C").map (fun s => s.stationId) = some 3) := by
  constructor
  · intro routes name
    suffices hgen : ∀ (rs : List Route) (g : Graph),
        idOf (rs.foldl (fun g route => processStops g route.name none route.stops) g) name =
          (idOf g name).or
            (((rs.flatMap (fun r => r.stops)).find? (fun s => s.stationName == name)).map
              (fun s => s.number)) by
      have h := hgen routes []
      unfold network firstStopNamed
      rw [h]
      rfl
    intro rs
    induction rs with
    | nil => intro g; rw [List.flatMap_nil]; rw [show (([] : List Stop).find?
        (fun s => s.stationName == name)).map (fun s => s.number) = none from rfl,
        Option.or_none]; rfl
    | cons r rest ih =>
      intro g
      show idOf (rest.foldl _ (processStops g r.name none r.stops)) name = _
      rw [ih, idOf_processStops, Option.or_assoc, List.flatMap_cons, List.find?_append,
        Option.map_or']
  · exact ⟨by decide, by decide, by decide⟩

/-- `incDistance` never touches the narrative. -/
theorem text_incDistance (j : Journey) (amt : JSDist) :
    (j.incDistance amt).text = j.text := by
  cases amt with
  | nan => rfl
  | num x =>
    simp only [Journey.incDistance]
    split <;> rfl

/-- `incDistance` never touches the change counter. -/
theorem changes_incDistance (j : Journey) (amt : JSDist) :
    (j.incDistance amt).changes = j.changes := by
  cases amt with
  | nan => rfl
  | num x =>
    simp only [Journey.incDistance]
    split <;> rfl

/-- With the sentinel route context, the per-link update records an embark
line and leaves the change counter alone. -/
theorem updateJourneyForLink_embark (j : Journey) (o : String) (link : Link) :
    (updateJourneyForLink j o link "origin").text =
      "Embark at " ++ o ++ " on " ++ link.routeName ++ "\n" ∧
    (updateJourneyForLink j o link "origin").changes = j.changes := by
  have h : updateJourneyForLink j o link "origin" =
      (j.addFirstStop o link.routeName).incDistance link.distance := by
    unfold updateJourneyForLink
    rw [if_pos rfl]
  rw [h, text_incDistance, changes_incDistance]
  exact ⟨rfl, rfl⟩

/-- Off the sentinel, a link leaving the current route appends a change line
and increments the change counter by exactly one. -/
theorem updateJourneyForLink_change (j : Journey) (o : String) (link : Link)
    (r : String) (hr : r ≠ "origin") (hl : link.routeName ≠ r) :
    (updateJourneyForLink j o link r).text =
      j.text ++ "At " ++ o ++ " change to " ++ link.routeName ++ "\n" ∧
    (updateJourneyForLink j o link r).changes = j.changes + 1 := by
  have h : updateJourneyForLink j o link r =
      (j.addChange o link.routeName).incDistance link.distance := by
    unfold updateJourneyForLink
    rw [if_neg hr, if_pos hl]
  rw [h, text_incDistance, changes_incDistance]
  exact ⟨rfl, rfl⟩

/-- Off the sentinel, a link staying on the current route changes neither the
narrative nor the change counter. -/
theorem updateJourneyForLink_same (j : Journey) (o : String) (link : Link)
    (r : String) (hr : r ≠ "origin") (hl : link.routeName = r) :
    (updateJourneyForLink j o link r).text = j.text ∧
    (updateJourneyForLink j o link r).changes = j.changes := by
  have h : updateJourneyForLink j o link r = j.incDistance link.distance := by
    unfold updateJourneyForLink
    rw [if_neg hr, if_neg (fun hc => hc hl)]
  rw [h, text_incDistance, changes_incDistance]
  exact ⟨rfl, rfl⟩

/-- Unfolding of the instrumented search at positive fuel. -/
theorem doGetBestRouteSteps_succ (g : Graph) (fuel : Nat) (origin destination : String)
    (journey : Journey) (routeName : String) (steps : List (String × String)) :
    doGetBestRouteSteps g (fuel + 1) origin destination journey routeName steps =
      (if origin = destination then
         [({ stations := journey.stations ++ [origin], distance := journey.distance,
             text := journey.text ++ ("Arrive at " ++ destination), success := true,
             changes := journey.changes }, steps)]
       else
         (linksOf g origin).flatMap (fun link =>
           if link.station ∈ journey.stations ++ [origin] then []
           else
             doGetBestRouteSteps g fuel link.station destination
               (updateJourneyForLink
                 { journey with stations := journey.stations ++ [origin] }
                 origin link routeName) link.routeName
               (steps ++ [(link.station, link.routeName)]))) := rfl

/-- Dropping the instrumentation recovers the plain search. -/
theorem map_fst_doGetBestRouteSteps (g : Graph) :
    ∀ (fuel : Nat) (o d : String) (j : Journey) (r : String)
      (steps : List (String × String)),
      (doGetBestRouteSteps g fuel o d j r steps).map Prod.fst =
        doGetBestRoute g fuel o d j r := by
  intro fuel
  induction fuel with
  | zero => intro o d j r steps; rfl
  | succ fuel ih =>
    intro o d j r steps
    rw [doGetBestRouteSteps_succ, doGetBestRoute_succ]
    by_cases h : o = d
    · rw [if_pos h, if_pos h]
      rfl
    · rw [if_neg h, if_neg h, List.map_flatMap]
      apply flatMap_congr
      intro link hlink
      by_cases hm : link.station ∈ j.stations ++ [o]
      · rw [if_pos hm, if_pos hm]
        rfl
      · rw [if_neg hm, if_neg hm, ih]

/-- Appending one more traversed edge extends the change lines by a change
line exactly when the route switches. -/
theorem changeLines_append (l : List (String × String)) :
    ∀ (s0 r0 t r' : String),
      changeLines s0 r0 (l ++ [(t, r')]) =
        changeLines s0 r0 l ++
          (if r' ≠ (l.getLastD (s0, r0)).2 then
            "At " ++ (l.getLastD (s0, r0)).1 ++ " change to " ++ r' ++ "\n" else "") := by
  induction l with
  | nil =>
    intro s0 r0 t r'
    show (if r' ≠ r0 then "At " ++ s0 ++ " change to " ++ r' ++ "\n" else "") ++
        changeLines t r' [] = "" ++ _
    rw [String.empty_append]
    show _ ++ ("" : String) = _
    rw [String.append_empty]
    rfl
  | cons p rest ih =>
    intro s0 r0 t r'
    obtain ⟨s1, r1⟩ := p
    simp only [List.cons_append, changeLines, List.append_eq]
    rw [ih s1 r1 t r', List.getLastD_cons]
    simp only [String.append_assoc]

/-- Appending one more traversed edge extends the narrative by a change line
exactly when the route switches. -/
theorem narrative_append (s0 : String) (l : List (String × String)) (t r' : String)
    (h : l ≠ []) :
    narrative s0 (l ++ [(t, r')]) =
      narrative s0 l ++
        (if r' ≠ (l.getLastD ("", "")).2 then
          "At " ++ (l.getLastD ("", "")).1 ++ " change to " ++ r' ++ "\n" else "") := by
  cases l with
  | nil => exact absurd rfl h
  | cons p rest =>
    obtain ⟨s1, r1⟩ := p
    simp only [List.cons_append, narrative, List.append_eq]
    rw [changeLines_append rest s1 r1 t r', List.getLastD_cons]
    simp only [String.append_assoc]

/-- Appending one more traversed edge bumps the change count exactly when
the route switches. -/
theorem countChanges_append (l : List (String × String)) :
    ∀ (r0 t r' d : String),
      countChanges r0 (l ++ [(t, r')]) =
        countChanges r0 l + (if r' ≠ (l.getLastD (d, r0)).2 then 1 else 0) := by
  induction l with
  | nil =>
    intro r0 t r' d
    show (if r' ≠ r0 then 1 else 0) + countChanges r' [] = 0 + _
    rw [Nat.zero_add]
    rfl
  | cons p rest ih =>
    intro r0 t r' d
    obtain ⟨s1, r1⟩ := p
    simp only [List.cons_append, countChanges, List.append_eq]
    rw [ih r1 t r' s1, List.getLastD_cons, Nat.add_assoc]

/-- `changesOfSteps` over an extended nonempty traversal. -/
theorem changesOfSteps_append (l : List (String × String)) (t r' : String)
    (h : l ≠ []) :
    changesOfSteps (l ++ [(t, r')]) =
      changesOfSteps l + (if r' ≠ (l.getLastD ("", "")).2 then 1 else 0) := by
  cases l with
  | nil => exact absurd rfl h
  | cons p rest =>
    obtain ⟨s1, r1⟩ := p
    simp only [List.cons_append, changesOfSteps]
    rw [countChanges_append rest r1 t r' s1, List.getLastD_cons]

/-- In a graph with no route literally named "origin", no link wears that
name. -/
theorem routeName_ne_origin_of_mem_linksOf (g : Graph)
    (hg : ∀ st ∈ g, ∀ link ∈ st.links, link.routeName ≠ "origin")
    (o : String) (link : Link) (h : link ∈ linksOf g o) :
    link.routeName ≠ "origin" := by
  unfold linksOf at h
  cases hlo : lookupStation g o with
  | none => rw [hlo] at h; simp at h
  | some st =>
    rw [hlo] at h
    exact hg st (mem_of_lookupStation g o st hlo) link h

/-- Invariant of the instrumented search: in a graph with no route named
"origin", every emitted journey's change counter counts exactly the route
switches among its traversed edges, and its narrative is the embark line,
the change lines, and the arrival line. -/
theorem steps_invariant (g : Graph) (destination s0 : String)
    (hg : ∀ st ∈ g, ∀ link ∈ st.links, link.routeName ≠ "origin") :
    ∀ (fuel : Nat) (o : String) (j : Journey) (r : String)
      (steps : List (String × String)),
      (steps = [] → o = s0 ∧ r = "origin" ∧ j.text = "" ∧ j.changes = 0) →
      (steps ≠ [] →
        (steps.getLastD ("", "")).1 = o ∧ (steps.getLastD ("", "")).2 = r ∧
        r ≠ "origin" ∧ j.text = narrative s0 steps ∧
        j.changes = changesOfSteps steps) →
      ∀ p ∈ doGetBestRouteSteps g fuel o destination j r steps,
        p.1.changes = changesOfSteps p.2 ∧
        p.1.text = narrative s0 p.2 ++ ("Arrive at " ++ destination) := by
  intro fuel
  induction fuel with
  | zero => intro o j r steps h0 h1 p hp; simp [doGetBestRouteSteps] at hp
  | succ fuel ih =>
    intro o j r steps h0 h1 p hp
    rw [doGetBestRouteSteps_succ] at hp
    by_cases hod : o = destination
    · rw [if_pos hod] at hp
      rcases List.mem_singleton.mp hp with rfl
      by_cases hst : steps = []
      · obtain ⟨-, -, htext, hch⟩ := h0 hst
        subst hst
        refine ⟨hch, ?_⟩
        show j.text ++ ("Arrive at " ++ destination) = _
        rw [htext]
        rfl
      · obtain ⟨-, -, -, htext, hch⟩ := h1 hst
        refine ⟨hch, ?_⟩
        show j.text ++ ("Arrive at " ++ destination) = _
        rw [htext]
    · rw [if_neg hod] at hp
      rw [List.mem_flatMap] at hp
      obtain ⟨link, hlink, hpmem⟩ := hp
      by_cases hm : link.station ∈ j.stations ++ [o]
      · rw [if_pos hm] at hpmem
        simp at hpmem
      · rw [if_neg hm] at hpmem
        have hlo : link.routeName ≠ "origin" :=
          routeName_ne_origin_of_mem_linksOf g hg o link hlink
        refine ih link.station _ link.routeName
          (steps ++ [(link.station, link.routeName)])
          (fun habs => absurd habs (by simp)) ?_ p hpmem
        intro _
        refine ⟨by rw [List.getLastD_concat], by rw [List.getLastD_concat], hlo, ?_, ?_⟩
        · by_cases hst : steps = []
          · subst hst
            obtain ⟨ho, hr, htext, hch⟩ := h0 rfl
            subst ho
            subst hr
            have he := updateJourneyForLink_embark
              ({ j with stations := j.stations ++ [o] }) o link
            rw [he.1]
            show "Embark at " ++ o ++ " on " ++ link.routeName ++ "\n" =
              ("Embark at " ++ o ++ " on " ++ link.routeName ++ "\n") ++ ""
            rw [String.append_empty]
          · obtain ⟨hs1, hs2, hrne, htext, hch⟩ := h1 hst
            by_cases hlr : link.routeName = r
            · have hu := updateJourneyForLink_same
                ({ j with stations := j.stations ++ [o] }) o link r hrne hlr
              rw [hu.1]
              show j.text = _
              rw [htext, narrative_append s0 steps link.station link.routeName hst,
                hs2, if_neg (fun hc => hc hlr), String.append_empty]
            · have hu := updateJourneyForLink_change
                ({ j with stations := j.stations ++ [o] }) o link r hrne hlr
              rw [hu.1]
              show j.text ++ "At " ++ o ++ " change to " ++ link.routeName ++ "\n" = _
              rw [htext, narrative_append s0 steps link.station link.routeName hst,
                hs2, if_pos hlr, hs1]
              simp only [String.append_assoc]
        · by_cases hst : steps = []
          · subst hst
            obtain ⟨ho, hr, htext, hch⟩ := h0 rfl
            subst hr
            have he := updateJourneyForLink_embark
              ({ j with stations := j.stations ++ [o] }) o link
            rw [he.2]
            show j.changes = _
            rw [hch]
            rfl
          · obtain ⟨hs1, hs2, hrne, htext, hch⟩ := h1 hst
            by_cases hlr : link.routeName = r
            · have hu := updateJourneyForLink_same
                ({ j with stations := j.stations ++ [o] }) o link r hrne hlr
              rw [hu.2]
              show j.changes = _
              rw [hch, changesOfSteps_append steps link.station link.routeName hst,
                hs2, if_neg (fun hc => hc hlr)]
              rfl
            · have hu := updateJourneyForLink_change
                ({ j with stations := j.stations ++ [o] }) o link r hrne hlr
              rw [hu.2]
              show j.changes + 1 = _
              rw [hch, changesOfSteps_append steps link.station link.routeName hst,
                hs2, if_pos hlr]

/-- C6 counterexample: in `sentinelGraph` station B has two links on the
distinct routes "origin" and "Blue", so the only journey from A to C takes a
first edge on route "origin" and a second edge on the different route
"Blue"; the claim demands a change counter of 1 and a narrative line
"At B change to Blue", but the search returns the journey with changes = 0
and no such line (the embark line is even overwritten), because the route
name "origin" collides with the sentinel route context. -/
theorem claim_C6_counterexample :
    linksOf sentinelGraph "B" =
      [{ routeName := "origin", distance := JSDist.num 5, station := "A", linklName := "A" },
       { routeName := "Blue", distance := JSDist.num 7, station := "C", linklName := "C" }] ∧
    getBestRoute sentinelGraph "A" "C" 5 =
      Except.ok [{ stations := ["A", "B", "C"], distance := 12,
                   text := "Embark at B on Blue\nArrive at C", success := true,
                   changes := 0 }] :=
  ⟨by decide, rfl⟩

/-- C6 amended: provided no route of the graph is literally named "origin"
(the sentinel route context of the search), every journey found from A to B
has: change counter equal to the number of route switches among consecutive
traversed edges (the first edge is an embark, not a change), and narrative
consisting of the embark line for the first edge, an "At Y change to R" line
for each route switch, and the arrival line; the instrumented search this is
stated over projects onto the plain search. -/
theorem claim_C6_amended (g : Graph) (A B : String)
    (hg : ∀ st ∈ g, ∀ link ∈ st.links, link.routeName ≠ "origin") :
    ((doGetBestRouteSteps g (searchFuel g) A B Journey.empty "origin" []).map Prod.fst =
      doGetBestRoute g (searchFuel g) A B Journey.empty "origin") ∧
    ∀ p ∈ doGetBestRouteSteps g (searchFuel g) A B Journey.empty "origin" [],
      p.1.changes = changesOfSteps p.2 ∧
      p.1.text = narrative A p.2 ++ ("Arrive at " ++ B) := by
  refine ⟨map_fst_doGetBestRouteSteps g (searchFuel g) A B Journey.empty "origin" [], ?_⟩
  intro p hp
  exact steps_invariant g B A hg (searchFuel g) A Journey.empty "origin" []
    (fun _ => ⟨rfl, rfl, rfl, rfl⟩) (fun habs => absurd rfl habs) p hp

/-- Witness for the amended C6 on the interchange graph: the A - C journey
changes route once at B, with the matching narrative. -/
theorem claim_C6_witness :
    ((doGetBestRouteSteps changeGraph (searchFuel changeGraph) "A" "C"
        Journey.empty "origin" []).map Prod.fst =
      doGetBestRoute changeGraph (searchFuel changeGraph) "A" "C"
        Journey.empty "origin") ∧
    (({ stations := ["A", "B", "C"], distance := 17,
        text := "Embark at A on Red\nAt B change to Blue\nArrive at C",
        success := true, changes := 1 } : Journey).changes =
      changesOfSteps [("B", "Red"), ("C", "Blue")] ∧
     ({ stations := ["A", "B", "C"], distance := 17,
        text := "Embark at A on Red\nAt B change to Blue\nArrive at C",
        success := true, changes := 1 } : Journey).text =
      narrative "A" [("B", "Red"), ("C", "Blue")] ++ ("Arrive at " ++ "C")) :=
  ⟨(claim_C6_amended changeGraph "A" "C" (by decide)).1,
   (claim_C6_amended changeGraph "A" "C" (by decide)).2
     ({ stations := ["A", "B", "C"], distance := 17,
        text := "Embark at A on Red\nAt B change to Blue\nArrive at C",
        success := true, changes := 1 }, [("B", "Red"), ("C", "Blue")])
     (by decide)⟩

/-- Witness for C2 on the concrete line graph. -/
theorem claim_C2_witness :
    getBestRoute lineGraph "B" "B" 2 =
      Except.ok [{ stations := ["B"], distance := 0, text := "Arrive at " ++ "B",
                   success := true, changes := 0 }] :=
  claim_C2 lineGraph "B" 2 (by decide) (by decide)

end Railway
